import Mathlib

/-!
# Verification of `Task2_database.py` (`DatabaseSimulator`)

Shallow embedding of the transactional key-value store in
`src/Task2_database.py`.  The store holds a base table `db` (the
"permanent storage") and a stack `_cache` of overlay mappings
(index 0 = oldest, last = innermost).  Python dictionaries are modelled
as association lists retaining insertion order; Python values are
modelled by `PyVal`, which carries enough structure to express Python
truthiness (`if _cache_value:`), the behaviour that decides several
claims.  Mutating methods become pure functions returning a new state;
the fallible ones (`set`, `commit`, `rollback`) return
`Except DBError`, where `DBError.noActiveTransaction` models
`Exception("No active transaction")`.  `get` and `count` are pure value
functions, so their freedom from side effects holds by construction.
-/

/-- A Python value, as used by the store: ints, strings, booleans and
`None`.  Values are opaque to the store except for truthiness. -/
inductive PyVal where
  | int (n : Int)
  | str (s : String)
  | bool (b : Bool)
  | none
deriving DecidableEq, Repr

/-- Python truthiness: `0`, `""`, `False` and `None` are falsy. -/
def PyVal.truthy : PyVal → Bool
  | PyVal.int n => n != 0
  | PyVal.str s => s != ""
  | PyVal.bool b => b
  | PyVal.none => false

/-- A Python dict, modelled as an association list in insertion order. -/
abbrev Dict := List (String × PyVal)

/-- `d.get(k, None)` as an `Option`: the binding of `k` in `d`
(first occurrence; a real dict has at most one). -/
def Dict.get : Dict → String → Option PyVal
  | [], _ => Option.none
  | p :: rest, k => if p.1 = k then Option.some p.2 else Dict.get rest k

/-- `d[k] = v`: overwrite the existing binding of `k` in place, or
append a new binding at the end (Python dicts keep insertion order). -/
def Dict.setKey : Dict → String → PyVal → Dict
  | [], k, v => [(k, v)]
  | p :: rest, k, v => if p.1 = k then (k, v) :: rest else p :: Dict.setKey rest k v

/-- `d.update(o)`: write every binding of `o` into `d`, in order. -/
def Dict.updateWith (d o : Dict) : Dict :=
  o.foldl (fun acc p => Dict.setKey acc p.1 p.2) d

/-- The keys of a dict, in order. -/
def Dict.keys (d : Dict) : List String := d.map Prod.fst

/-- Well-formedness of the association-list model: no duplicate keys.
Every real Python dict satisfies this by construction. -/
def Dict.WF (d : Dict) : Prop := d.keys.Nodup

instance (d : Dict) : Decidable (Dict.WF d) :=
  List.nodupDecidable (Dict.keys d)

/-- `del d[k]` (used only to state claims about entries being treated
as absent): remove the binding of `k`, keeping everything else. -/
def Dict.erase (d : Dict) (k : String) : Dict :=
  d.filter (fun p => decide (p.1 ≠ k))

/-- The store state: `db` is the "permanent storage" dict, `cache` is
the `_cache` list of overlay dicts (index 0 oldest, last innermost). -/
structure DatabaseSimulator where
  db : Dict
  cache : List Dict
deriving DecidableEq, Repr

/-- `DatabaseSimulator()`: empty base table, empty overlay stack. -/
def DatabaseSimulator.init : DatabaseSimulator := ⟨[], []⟩

/-- The single error kind: `Exception("No active transaction")`,
the spec's `NoActiveTransactionError`. -/
inductive DBError where
  | noActiveTransaction
deriving DecidableEq, Repr

/-- `begin()`: `self._cache.append({})`. -/
def DatabaseSimulator.begin (s : DatabaseSimulator) : DatabaseSimulator :=
  { s with cache := s.cache ++ [[]] }

/-- `count()`: `len(self.db)`. -/
def DatabaseSimulator.count (s : DatabaseSimulator) : Nat :=
  s.db.length

/-- The loop of `get`: scan the given overlays in order (the caller
passes `reversed(self._cache)`, i.e. newest first); for each,
`_cache_value = _cache_db.get(key, None)`, and return it when
`if _cache_value:` — i.e. when it is truthy. -/
def cacheScan : List Dict → String → Option PyVal
  | [], _ => Option.none
  | d :: rest, k =>
    let v := (Dict.get d k).getD PyVal.none
    if v.truthy then Option.some v else cacheScan rest k

/-- `get(key)`: scan `reversed(self._cache)` with the truthiness test,
else `self.db.get(key, None)`.  Python's `None` result is `PyVal.none`. -/
def DatabaseSimulator.get (s : DatabaseSimulator) (key : String) : PyVal :=
  match cacheScan s.cache.reverse key with
  | Option.some v => v
  | Option.none => (Dict.get s.db key).getD PyVal.none

/-- `set(key, value)`: raise if `_cache` is empty, else
`self._cache[-1][key] = value`. -/
def DatabaseSimulator.set (s : DatabaseSimulator) (key : String) (value : PyVal) :
    Except DBError DatabaseSimulator :=
  if h : s.cache = [] then Except.error DBError.noActiveTransaction
  else Except.ok { s with
    cache := s.cache.dropLast ++ [Dict.setKey (s.cache.getLast h) key value] }

/-- `commit()`: raise if `_cache` is empty, else
`for cache in self._cache: self.db.update(cache)` then `self._cache.clear()`. -/
def DatabaseSimulator.commit (s : DatabaseSimulator) :
    Except DBError DatabaseSimulator :=
  if s.cache = [] then Except.error DBError.noActiveTransaction
  else Except.ok { db := s.cache.foldl Dict.updateWith s.db, cache := [] }

/-- `rollback()`: raise if `_cache` is empty, else `self._cache.pop()`. -/
def DatabaseSimulator.rollback (s : DatabaseSimulator) :
    Except DBError DatabaseSimulator :=
  if s.cache = [] then Except.error DBError.noActiveTransaction
  else Except.ok { s with cache := s.cache.dropLast }

/-- The overlay scan as claim C1 words it: the value from the first
overlay in the given order that *contains* the key, with no truthiness
proviso.  Compared against `cacheScan`, which embeds the code. -/
def specScan : List Dict → String → Option PyVal
  | [], _ => Option.none
  | d :: rest, k =>
    match Dict.get d k with
    | Option.some v => Option.some v
    | Option.none => specScan rest k

/-- `get` as claim C1 words it: the value from the innermost overlay
mapping that contains the key; else the base table's value; else the
not-found sentinel `None`. -/
def specGet (s : DatabaseSimulator) (k : String) : PyVal :=
  match specScan s.cache.reverse k with
  | Option.some v => v
  | Option.none => (Dict.get s.db k).getD PyVal.none

/-- `get` as the amended claim C1 words it: the value from the
innermost overlay mapping that contains the key *with a truthy value*;
if no overlay does, the base table's value; else `None`. -/
def amendedGet (s : DatabaseSimulator) (k : String) : PyVal :=
  match s.cache.reverse.findSome? (fun d =>
      match Dict.get d k with
      | Option.some v => if v.truthy then Option.some v else Option.none
      | Option.none => Option.none) with
  | Option.some v => v
  | Option.none => (Dict.get s.db k).getD PyVal.none

lemma cacheScan_append (l₁ l₂ : List Dict) (k : String) :
    cacheScan (l₁ ++ l₂) k =
      match cacheScan l₁ k with
      | Option.some v => Option.some v
      | Option.none => cacheScan l₂ k := by
  induction l₁ with
  | nil => rfl
  | cons d rest ih =>
    simp only [List.cons_append, cacheScan]
    by_cases h : ((Dict.get d k).getD PyVal.none).truthy <;> simp [h, ih]

lemma specScan_append (l₁ l₂ : List Dict) (k : String) :
    specScan (l₁ ++ l₂) k =
      match specScan l₁ k with
      | Option.some v => Option.some v
      | Option.none => specScan l₂ k := by
  induction l₁ with
  | nil => rfl
  | cons d rest ih =>
    simp only [List.cons_append, specScan]
    cases Dict.get d k <;> simp [ih]

lemma cacheScan_eq_findSome (l : List Dict) (k : String) :
    cacheScan l k = l.findSome? (fun d =>
      match Dict.get d k with
      | Option.some v => if v.truthy then Option.some v else Option.none
      | Option.none => Option.none) := by
  induction l with
  | nil => rfl
  | cons d rest ih =>
    simp only [cacheScan, List.findSome?_cons]
    cases hdk : Dict.get d k with
    | none => simpa [hdk, PyVal.truthy] using ih
    | some v =>
      by_cases hv : v.truthy <;> simp [hdk, hv, ih]

lemma Dict.get_eq_none_of_not_mem {d : Dict} {k : String} (h : k ∉ d.keys) :
    Dict.get d k = Option.none := by
  induction d with
  | nil => rfl
  | cons p rest ih =>
    have hk : k ∉ (p.1 :: Dict.keys rest) := h
    simp only [List.mem_cons, not_or] at hk
    have h1 : ¬ p.1 = k := fun hc => hk.1 hc.symm
    simp [Dict.get, h1, ih hk.2]

lemma Dict.get_setKey (d : Dict) (k k' : String) (v : PyVal) :
    Dict.get (Dict.setKey d k' v) k =
      if k' = k then Option.some v else Dict.get d k := by
  induction d with
  | nil => simp [Dict.setKey, Dict.get]
  | cons p rest ih =>
    by_cases h1 : p.1 = k'
    · by_cases h2 : k' = k
      · subst h2
        simp [Dict.setKey, Dict.get, h1]
      · have hp : ¬ p.1 = k := by rw [h1]; exact h2
        simp [Dict.setKey, Dict.get, h1, h2, hp]
    · by_cases h2 : p.1 = k
      · have hk : ¬ k' = k := fun hc => h1 (h2.trans hc.symm)
        have hk2 : ¬ k = k' := fun hc => h1 (h2.trans hc)
        simp [Dict.setKey, Dict.get, h1, h2, hk, hk2]
      · simp [Dict.setKey, Dict.get, h1, h2, ih]

lemma Dict.get_updateWith (o d : Dict) (k : String) (ho : Dict.WF o) :
    Dict.get (Dict.updateWith d o) k =
      match Dict.get o k with
      | Option.some v => Option.some v
      | Option.none => Dict.get d k := by
  induction o generalizing d with
  | nil => rfl
  | cons p rest ih =>
    have hnd : p.1 ∉ Dict.keys rest ∧ Dict.WF rest := by
      simpa [Dict.WF, Dict.keys, List.nodup_cons] using ho
    show Dict.get (Dict.updateWith (Dict.setKey d p.1 p.2) rest) k = _
    rw [ih _ hnd.2]
    by_cases h1 : p.1 = k
    · subst h1
      rw [Dict.get_eq_none_of_not_mem hnd.1]
      simp [Dict.get, Dict.get_setKey]
    · simp only [Dict.get, if_neg h1]
      cases Dict.get rest k <;> simp [Dict.get_setKey, h1]

lemma get_foldl_updateWith (cache : List Dict) (db : Dict) (k : String)
    (h : ∀ d ∈ cache, Dict.WF d) :
    Dict.get (cache.foldl Dict.updateWith db) k =
      match specScan cache.reverse k with
      | Option.some v => Option.some v
      | Option.none => Dict.get db k := by
  induction cache generalizing db with
  | nil => rfl
  | cons c rest ih =>
    have hc : Dict.WF c := h c (List.mem_cons_self c rest)
    have hrest : ∀ d ∈ rest, Dict.WF d := fun d hd => h d (List.mem_cons_of_mem c hd)
    rw [List.foldl_cons, ih _ hrest, List.reverse_cons, specScan_append]
    rw [Dict.get_updateWith c db k hc]
    cases specScan rest.reverse k <;> cases hck : Dict.get c k <;> simp [specScan, hck]

lemma Dict.get_erase_self (d : Dict) (k : String) :
    Dict.get (Dict.erase d k) k = Option.none := by
  induction d with
  | nil => rfl
  | cons p rest ih =>
    by_cases h : p.1 = k
    · simpa [Dict.erase, List.filter, h] using ih
    · simpa [Dict.erase, List.filter, h, Dict.get] using ih

lemma cacheScan_eq_none_of_ge (l : List Dict) (k : String)
    (h : ∀ d ∈ l, Dict.get d k = Option.none) :
    cacheScan l k = Option.none := by
  induction l with
  | nil => rfl
  | cons d rest ih =>
    have hd : Dict.get d k = Option.none := h d (List.mem_cons_self d rest)
    simp only [cacheScan, hd]
    exact ih (fun d' hd' => h d' (List.mem_cons_of_mem d hd'))

/-- An operation drawn from `begin`/`set`, for claims about sequences
of calls that involve no `commit`. -/
inductive Op where
  | begin
  | set (k : String) (v : PyVal)
deriving DecidableEq, Repr

/-- Run a sequence of `begin`/`set` calls left to right; a raised
`NoActiveTransactionError` propagates (aborting the rest), exactly as
an uncaught Python exception would. -/
def runOps : DatabaseSimulator → List Op → Except DBError DatabaseSimulator
  | s, [] => Except.ok s
  | s, Op.begin :: rest => runOps s.begin rest
  | s, Op.set k v :: rest =>
    match s.set k v with
    | Except.ok s' => runOps s' rest
    | Except.error e => Except.error e

lemma set_db_eq {s s' : DatabaseSimulator} {k : String} {v : PyVal}
    (h : s.set k v = Except.ok s') : s'.db = s.db := by
  by_cases hc : s.cache = []
  · simp [DatabaseSimulator.set, hc] at h
  · simp only [DatabaseSimulator.set, dif_neg hc, Except.ok.injEq] at h
    rw [← h]

lemma runOps_db_eq {s s' : DatabaseSimulator} {ops : List Op}
    (h : runOps s ops = Except.ok s') : s'.db = s.db := by
  induction ops generalizing s with
  | nil =>
    simp only [runOps, Except.ok.injEq] at h
    rw [← h]
  | cons op rest ih =>
    cases op with
    | begin =>
      have := ih (s := s.begin) h
      simpa [DatabaseSimulator.begin] using this
    | set k v =>
      simp only [runOps] at h
      cases hset : DatabaseSimulator.set s k v with
      | ok s₂ =>
        rw [hset] at h
        exact (ih (s := s₂) h).trans (set_db_eq hset)
      | error e => rw [hset] at h; exact absurd h (by simp)

/-- **C1** (counterexample): the claim fails on falsy overlay values.
With overlay stack `[{a:1},{a:0}]` and an empty base table, the
innermost overlay mapping containing `"a"` stores `0`, so the claim —
rendered literally by `specGet` — requires `get("a") == 0`; the code
returns `1` from the older overlay instead. -/
theorem C1_counterexample :
    DatabaseSimulator.get ⟨[], [[("a", PyVal.int 1)], [("a", PyVal.int 0)]]⟩ "a"
        = PyVal.int 1 ∧
      specGet ⟨[], [[("a", PyVal.int 1)], [("a", PyVal.int 0)]]⟩ "a"
        = PyVal.int 0 ∧
      DatabaseSimulator.get ⟨[], [[("a", PyVal.int 1)], [("a", PyVal.int 0)]]⟩ "a"
        ≠ specGet ⟨[], [[("a", PyVal.int 1)], [("a", PyVal.int 0)]]⟩ "a" :=
  ⟨by decide, by decide, by decide⟩

/-- **C1** (amended): for every store state and key `k`, `get k`
returns, in order of priority, the value from the innermost overlay
mapping that contains `k` *with a truthy value*; if no overlay
contains `k` with a truthy value, the base table's value for `k`; and
the not-found sentinel `None` if `k` is absent there too
(`amendedGet`).  The claim's concrete example (all values truthy)
holds as stated: `get("a") == 3`, `get("b") == 2`, `get("c")` is
`None`.  `get` is a pure function of the state in this embedding, so
it has no side effects on the base table or the overlay stack. -/
theorem C1_read_priority :
    (∀ (s : DatabaseSimulator) (k : String),
        DatabaseSimulator.get s k = amendedGet s k) ∧
      DatabaseSimulator.get
          ⟨[], [[("a", PyVal.int 1)], [("b", PyVal.int 2)], [("a", PyVal.int 3)]]⟩ "a"
        = PyVal.int 3 ∧
      DatabaseSimulator.get
          ⟨[], [[("a", PyVal.int 1)], [("b", PyVal.int 2)], [("a", PyVal.int 3)]]⟩ "b"
        = PyVal.int 2 ∧
      DatabaseSimulator.get
          ⟨[], [[("a", PyVal.int 1)], [("b", PyVal.int 2)], [("a", PyVal.int 3)]]⟩ "c"
        = PyVal.none := by
  refine ⟨fun s k => ?_, by decide, by decide, by decide⟩
  unfold DatabaseSimulator.get amendedGet
  rw [cacheScan_eq_findSome]

/-- **C2**: for every store state whose overlays are genuine dicts
(`Dict.WF`: no duplicate keys, automatic for any state built by
Python dict operations) and whose overlay stack is non-empty, `commit`
succeeds, empties the stack entirely, and produces a base table whose
binding for every key `k` is the newest overlay's value for `k`
whenever some overlay contains `k` (newer overlays win over older
ones and over the pre-existing base entry), and the old base binding
otherwise. -/
theorem C2_commit_flattening (s : DatabaseSimulator)
    (hwf : ∀ d ∈ s.cache, Dict.WF d) (hne : s.cache ≠ []) :
    ∃ s', s.commit = Except.ok s' ∧ s'.cache = [] ∧
      ∀ k, Dict.get s'.db k =
        match specScan s.cache.reverse k with
        | Option.some v => Option.some v
        | Option.none => Dict.get s.db k := by
  refine ⟨⟨s.cache.foldl Dict.updateWith s.db, []⟩, ?_, rfl, ?_⟩
  · simp [DatabaseSimulator.commit, hne]
  · intro k
    exact get_foldl_updateWith s.cache s.db k hwf

/-- **C2** witness: the P3 instance — overlays
`[{c:5,e:1},{d:6},{e:99}]` over an empty base table; the resulting
base table is `{c:5,d:6,e:99}` pointwise and the stack is empty. -/
theorem C2_commit_flattening_witness :
    ∃ s', DatabaseSimulator.commit
          ⟨[], [[("c", PyVal.int 5), ("e", PyVal.int 1)], [("d", PyVal.int 6)],
                [("e", PyVal.int 99)]]⟩ = Except.ok s' ∧ s'.cache = [] ∧
      ∀ k, Dict.get s'.db k =
        match specScan ([[("c", PyVal.int 5), ("e", PyVal.int 1)],
            [("d", PyVal.int 6)], [("e", PyVal.int 99)]] : List Dict).reverse k with
        | Option.some v => Option.some v
        | Option.none => Dict.get ([] : Dict) k :=
  C2_commit_flattening
    ⟨[], [[("c", PyVal.int 5), ("e", PyVal.int 1)], [("d", PyVal.int 6)],
          [("e", PyVal.int 99)]]⟩ (by decide) (by decide)

/-- **C3** (claim right, code wrong): the claim — an explicitly stored
falsy overlay value is present and is returned by `get` — matches the
code's own docstring ("check if the key is in the `_cache` from newest
to oldest") and the spec's stated intent, but the loop tests the
*value*'s truthiness (`if _cache_value:`), not key membership.  At
base table `{a: 7}` with overlay stack `[{a: 0}]`, the innermost
overlay contains `"a"` with stored value `0`, yet `get("a")` returns
`7` from the base table rather than the stored `0`. -/
theorem C3_falsy_overlay_code_behavior :
    DatabaseSimulator.get ⟨[("a", PyVal.int 7)], [[("a", PyVal.int 0)]]⟩ "a"
        = PyVal.int 7 ∧
      Dict.get [("a", PyVal.int 0)] "a" = Option.some (PyVal.int 0) :=
  ⟨by decide, by decide⟩

/-- **C4**: if an overlay mapping stores a falsy value for `k`, the
resolution logic of `get` treats that entry exactly as if it were
absent: deleting the entry from that overlay (`Dict.erase`) does not
change the result of `get`, which therefore falls through to the
other overlays or the base table. -/
theorem C4_falsy_fallthrough (db : Dict) (older newer : List Dict) (d : Dict)
    (k : String) (v : PyVal) (hv : Dict.get d k = Option.some v)
    (hfalsy : v.truthy = false) :
    DatabaseSimulator.get ⟨db, older ++ d :: newer⟩ k
      = DatabaseSimulator.get ⟨db, older ++ Dict.erase d k :: newer⟩ k := by
  have hd : cacheScan [d] k = Option.none := by
    simp [cacheScan, hv, hfalsy]
  have he : cacheScan [Dict.erase d k] k = Option.none := by
    simp [cacheScan, Dict.get_erase_self, PyVal.truthy]
  have hsplit : ∀ x : Dict, (older ++ x :: newer).reverse
      = (newer.reverse ++ [x]) ++ older.reverse := by
    intro x; simp
  unfold DatabaseSimulator.get
  rw [hsplit d, hsplit (Dict.erase d k)]
  simp only [cacheScan_append, hd, he]

/-- **C4** witness: base `{a: 7}`, single overlay `{a: 0}` storing the
falsy `0` under `"a"`. -/
theorem C4_falsy_fallthrough_witness :
    Dict.get [("a", PyVal.int 0)] "a" = Option.some (PyVal.int 0) ∧
      (PyVal.int 0).truthy = false ∧
      DatabaseSimulator.get
          ⟨[("a", PyVal.int 7)], [] ++ [("a", PyVal.int 0)] :: []⟩ "a"
        = DatabaseSimulator.get
            ⟨[("a", PyVal.int 7)], [] ++ Dict.erase [("a", PyVal.int 0)] "a" :: []⟩ "a" :=
  ⟨by decide, by decide,
    C4_falsy_fallthrough [("a", PyVal.int 7)] [] [] [("a", PyVal.int 0)] "a"
      (PyVal.int 0) (by decide) (by decide)⟩

/-- **C5**: on a store whose overlay stack is empty, `set`, `commit`
and `rollback` each raise the no-active-transaction error
(`Exception("No active transaction")`, the spec's
`NoActiveTransactionError`).  The embedded operations are pure
functions returning only the error in this case, so the input state —
base table and overlay stack — is untouched: failure is atomic. -/
theorem C5_empty_stack_errors (s : DatabaseSimulator) (h : s.cache = [])
    (k : String) (v : PyVal) :
    s.set k v = Except.error DBError.noActiveTransaction ∧
      s.commit = Except.error DBError.noActiveTransaction ∧
      s.rollback = Except.error DBError.noActiveTransaction := by
  refine ⟨?_, ?_, ?_⟩ <;>
    simp [DatabaseSimulator.set, DatabaseSimulator.commit,
      DatabaseSimulator.rollback, h]

/-- **C5** witness: the freshly constructed store. -/
theorem C5_empty_stack_errors_witness :
    DatabaseSimulator.init.cache = [] ∧
      (DatabaseSimulator.init.set "x" (PyVal.int 1)
          = Except.error DBError.noActiveTransaction ∧
        DatabaseSimulator.init.commit = Except.error DBError.noActiveTransaction ∧
        DatabaseSimulator.init.rollback = Except.error DBError.noActiveTransaction) :=
  ⟨rfl, C5_empty_stack_errors DatabaseSimulator.init rfl "x" (PyVal.int 1)⟩

/-- **C6**: `rollback` on a non-empty overlay stack removes exactly
the innermost (last) overlay mapping and discards its contents: the
stack shrinks by exactly one, and every older overlay and the entire
base table are unchanged.  In particular the stack
`[{d:"yep"},{d:"nope"}]` becomes exactly `[{d:"yep"}]`. -/
theorem C6_rollback_scope :
    (∀ (db : Dict) (cs : List Dict) (d : Dict),
        DatabaseSimulator.rollback ⟨db, cs ++ [d]⟩ = Except.ok ⟨db, cs⟩) ∧
      DatabaseSimulator.rollback
          ⟨[], [[("d", PyVal.str "yep")], [("d", PyVal.str "nope")]]⟩
        = Except.ok ⟨[], [[("d", PyVal.str "yep")]]⟩ := by
  constructor
  · intro db cs d
    simp [DatabaseSimulator.rollback, List.dropLast_concat]
  · rfl

/-- **C7**: on a non-empty stack, `set` rewrites only the innermost
overlay — `key ↦ value` is inserted or overwritten there while the
base table and every older overlay are unchanged — and consequently
any sequence of `begin`/`set` calls with no `commit` leaves the base
table, hence `count()`, unchanged. -/
theorem C7_isolation :
    (∀ (db : Dict) (cs : List Dict) (d : Dict) (k : String) (v : PyVal),
        DatabaseSimulator.set ⟨db, cs ++ [d]⟩ k v
          = Except.ok ⟨db, cs ++ [Dict.setKey d k v]⟩) ∧
      (∀ (s : DatabaseSimulator) (ops : List Op) (s' : DatabaseSimulator),
        runOps s ops = Except.ok s' →
          s'.db = s.db ∧ s'.count = s.count) := by
  constructor
  · intro db cs d k v
    have hne : ¬ ((cs ++ [d] : List Dict) = []) := by simp
    simp only [DatabaseSimulator.set, dif_neg hne]
    rw [List.dropLast_concat, List.getLast_concat]
  · intro s ops s' h
    have hdb := runOps_db_eq h
    exact ⟨hdb, by simp [DatabaseSimulator.count, hdb]⟩

/-- **C7** witness: `begin(); set("a",1); begin(); set("b",2)` from a
fresh store leaves the base table, and therefore `count()`, unchanged. -/
theorem C7_isolation_witness :
    runOps DatabaseSimulator.init
        [Op.begin, Op.set "a" (PyVal.int 1), Op.begin, Op.set "b" (PyVal.int 2)]
      = Except.ok ⟨[], [[("a", PyVal.int 1)], [("b", PyVal.int 2)]]⟩ ∧
      (⟨[], [[("a", PyVal.int 1)], [("b", PyVal.int 2)]]⟩ : DatabaseSimulator).db
          = DatabaseSimulator.init.db ∧
      (⟨[], [[("a", PyVal.int 1)], [("b", PyVal.int 2)]]⟩ : DatabaseSimulator).count
          = DatabaseSimulator.init.count :=
  ⟨by rfl,
    C7_isolation.2 DatabaseSimulator.init
      [Op.begin, Op.set "a" (PyVal.int 1), Op.begin, Op.set "b" (PyVal.int 2)]
      ⟨[], [[("a", PyVal.int 1)], [("b", PyVal.int 2)]]⟩ (by rfl)⟩

/-- **C8**: `begin` always succeeds (a total function in the
embedding, as in the code) and its only effect is to push one new
empty overlay: the base table is unchanged, the stack length grows by
exactly one, every existing overlay is preserved in place, and the new
innermost overlay is the empty mapping.  `count` always succeeds, has
no side effects (it is a pure function of the state), ignores the
overlay stack entirely, and returns the number of entries of the base
table alone. -/
theorem C8_begin_count :
    (∀ s : DatabaseSimulator,
        (s.begin).db = s.db ∧
        (s.begin).cache.length = s.cache.length + 1 ∧
        (s.begin).cache.take s.cache.length = s.cache ∧
        (s.begin).cache.getLast? = Option.some []) ∧
      (∀ (db : Dict) (cs cs' : List Dict),
        DatabaseSimulator.count ⟨db, cs⟩ = DatabaseSimulator.count ⟨db, cs'⟩ ∧
        DatabaseSimulator.count ⟨db, cs⟩ = db.length) := by
  constructor
  · intro s
    refine ⟨rfl, by simp [DatabaseSimulator.begin], ?_, ?_⟩
    · exact List.take_left s.cache [[]]
    · exact List.getLast?_concat s.cache
  · intro db cs cs'
    exact ⟨rfl, rfl⟩

/-- **C9**: `begin()` immediately followed by `rollback()` restores
exactly the prior state: `rollback` pops precisely the empty overlay
that `begin` pushed, so the base table and the whole overlay stack
(every overlay's contents, in order) equal their values before the
`begin()`. -/
theorem C9_begin_rollback (s : DatabaseSimulator) :
    (s.begin).rollback = Except.ok s := by
  cases s with
  | mk db cache =>
    simp [DatabaseSimulator.begin, DatabaseSimulator.rollback,
      List.dropLast_concat]

/-- **C10**: when no overlay mapping contains `k` at all, `get k`
returns the base table's binding for `k` unconditionally — including
when that stored value is falsy — because the final base-table lookup
(`self.db.get(key, None)`) is returned without any truthiness test:
the fall-through-on-falsy behaviour applies only to overlay lookups. -/
theorem C10_base_falsy (db : Dict) (cs : List Dict) (k : String) (v : PyVal)
    (hcs : ∀ d ∈ cs, Dict.get d k = Option.none)
    (hdb : Dict.get db k = Option.some v) :
    DatabaseSimulator.get ⟨db, cs⟩ k = v := by
  have h : cacheScan cs.reverse k = Option.none :=
    cacheScan_eq_none_of_ge cs.reverse k
      (fun d hd => hcs d (List.mem_reverse.mp hd))
  show (match cacheScan cs.reverse k with
        | Option.some v' => v'
        | Option.none => (Dict.get db k).getD PyVal.none) = v
  simp [h, hdb]

/-- **C10** witness: overlays `[{y:1}]` (none containing `"z"`), base
table `{z: 0}` holding the falsy `0`: `get("z")` returns `0`. -/
theorem C10_base_falsy_witness :
    (∀ d ∈ ([[("y", PyVal.int 1)]] : List Dict), Dict.get d "z" = Option.none) ∧
      Dict.get [("z", PyVal.int 0)] "z" = Option.some (PyVal.int 0) ∧
      DatabaseSimulator.get ⟨[("z", PyVal.int 0)], [[("y", PyVal.int 1)]]⟩ "z"
        = PyVal.int 0 :=
  ⟨by decide, by decide,
    C10_base_falsy [("z", PyVal.int 0)] [[("y", PyVal.int 1)]] "z" (PyVal.int 0)
      (by decide) (by decide)⟩
